import Mathlib

/-!
A shallow embedding of `src/runtime/src/context.rs` from the extism runtime:
the `Context` structure (plugin registry, error slot, monotonic id counter,
reclaimed-id queue) and its operations `new`, `next_id`, `set_error`, `error`,
`plugin` and `remove`, together with theorems about the allocator's uniqueness,
exhaustion, FIFO-reuse and error-slot behaviour.

Machine integers: `PluginIndex` is Rust's `i32`; the counter starts at `0` and
is only ever incremented while it is strictly below `i32::MAX`, so it never
overflows and is modelled as `Int` with an explicit bound `PluginIndex.MAX`.
The `BTreeMap<PluginIndex, Plugin>` registry is modelled as an association
list with the map operations `btreeInsert` / `btreeRemove` / `btreeGet`;
a `BTreeMap` always has pairwise-distinct keys, which appears below as the
representation hypothesis `(keys l).Nodup` where a theorem needs it.
-/

namespace Extism

/-- `PluginIndex` is Rust's `i32` (`pub type PluginIndex = i32`), modelled as
`Int`; its values in this development stay in `[0, PluginIndex.MAX]`. -/
abbrev PluginIndex := Int

/-- The largest representable `i32`, `i32::MAX = 2^31 - 1`. -/
def PluginIndex.MAX : Int := 2147483647

/-- Decidable equality for `Except`, used to state and evaluate equalities
between `Result` values of `Context::next_id`. -/
instance {ε σ : Type} [DecidableEq ε] [DecidableEq σ] :
    DecidableEq (Except ε σ) := fun x y =>
  match x, y with
  | Except.ok a, Except.ok b =>
    if h : a = b then isTrue (by rw [h])
    else isFalse (fun e => h (Except.ok.inj e))
  | Except.error a, Except.error b =>
    if h : a = b then isTrue (by rw [h])
    else isFalse (fun e => h (Except.error.inj e))
  | Except.ok _, Except.error _ => isFalse (fun e => Except.noConfusion e)
  | Except.error _, Except.ok _ => isFalse (fun e => Except.noConfusion e)

/-- Key list of an association list modelling a `BTreeMap`. -/
def keys {α : Type} (l : List (PluginIndex × α)) : List PluginIndex :=
  l.map Prod.fst

/-- `BTreeMap::insert`: store `v` under `k`, replacing any existing binding,
keeping the list sorted by key. -/
def btreeInsert {α : Type} (k : PluginIndex) (v : α) :
    List (PluginIndex × α) → List (PluginIndex × α)
  | [] => [(k, v)]
  | (k', v') :: rest =>
    if k < k' then (k, v) :: (k', v') :: rest
    else if k = k' then (k, v) :: rest
    else (k', v') :: btreeInsert k v rest

/-- `BTreeMap::remove`: delete the binding for `k` if present. -/
def btreeRemove {α : Type} (k : PluginIndex) :
    List (PluginIndex × α) → List (PluginIndex × α)
  | [] => []
  | (k', v') :: rest => if k = k' then rest else (k', v') :: btreeRemove k rest

/-- `BTreeMap::get_mut` viewed as a lookup: the value bound to `k`, if any. -/
def btreeGet {α : Type} (k : PluginIndex) :
    List (PluginIndex × α) → Option α
  | [] => none
  | (k', v') :: rest => if k = k' then some v' else btreeGet k rest

/-- The `Context` struct of `context.rs`: plugin registry, error slot,
monotonic id counter (`next_id: AtomicI32`; all operations here are the
serialized single-writer executions, so the atomic is plain state) and the
reclaimed-id queue (`VecDeque<PluginIndex>`, front at the list head). -/
structure Context (α : Type) where
  plugins : List (PluginIndex × α)
  error : Option String
  next_id : Int
  reclaimed_ids : List PluginIndex
  deriving DecidableEq

/-- `Context::new` / `Context::default`: empty registry, no error, counter 0,
empty reclaimed queue. -/
def Context.new {α : Type} : Context α :=
  { plugins := [], error := none, next_id := 0, reclaimed_ids := [] }

/-- `START_REUSING_IDS`: the reclaimed-queue length threshold at which
allocation starts reusing old ids. -/
def START_REUSING_IDS : Nat := 25

/-- The message of the `AllocationExhausted` error built by
`anyhow::format_err!` in `Context::next_id`. -/
def allocExhaustedMsg : String :=
  "All plugin descriptors are in use, unable to allocate a new plugin"

/-- `Context::next_id`: if the reclaimed queue has reached
`START_REUSING_IDS` entries or the counter equals `PluginIndex::MAX`, pop the
front of the reclaimed queue and return it when one exists; failing that,
error out when exhausted; otherwise post-increment the counter and return its
old value.  The pair is (returned `Result`, context after the call). -/
def next_id {α : Type} (c : Context α) :
    Except String PluginIndex × Context α :=
  if c.reclaimed_ids.length ≥ START_REUSING_IDS ∨ c.next_id = PluginIndex.MAX then
    match c.reclaimed_ids with
    | x :: rest => (Except.ok x, { c with reclaimed_ids := rest })
    | [] =>
      if c.next_id = PluginIndex.MAX then
        (Except.error allocExhaustedMsg, c)
      else
        (Except.ok c.next_id, { c with next_id := c.next_id + 1 })
  else
    (Except.ok c.next_id, { c with next_id := c.next_id + 1 })

/-- `Context::set_error`: store the representation of the failure value in
the error slot, overwriting any previous value.  Failure values are modelled
by their `Debug` representation, a `String`. -/
def set_error {α : Type} (c : Context α) (e : String) : Context α :=
  { c with error := some e }

/-- `Context::error`: set the error slot and return `x` unchanged. -/
def error {α β : Type} (c : Context α) (e : String) (x : β) : β × Context α :=
  (x, set_error c e)

/-- `Context::plugin`: look up the plugin registered under `id`.  The Rust
function returns `Option<&mut Plugin>`; the lookup itself does not change the
registry, so it is modelled as a pure read. -/
def plugin {α : Type} (c : Context α) (id : PluginIndex) : Option α :=
  btreeGet id c.plugins

/-- `Context::remove`: delete the registry entry for `id` (if any) and
unconditionally push `id` onto the back of the reclaimed-id queue. -/
def remove {α : Type} (c : Context α) (id : PluginIndex) : Context α :=
  { c with
    plugins := btreeRemove id c.plugins
    reclaimed_ids := c.reclaimed_ids ++ [id] }

/-- Modelled from the spec: the Registry `insert` operation (spec §4.2,
`insert(id, plugin)` stores `plugin` under `id`).  In the repository callers
outside `context.rs` perform it directly via `BTreeMap::insert` on the
public `plugins` field; that call site is not under `src/`. -/
def insert {α : Type} (c : Context α) (id : PluginIndex) (p : α) : Context α :=
  { c with plugins := btreeInsert id p c.plugins }

/-- Labels for the operations a caller can perform on a `Context`, used to
state trace properties over arbitrary operation sequences. -/
inductive Op (α : Type) where
  | allocate : Op α
  | insert (id : PluginIndex) (p : α) : Op α
  | remove (id : PluginIndex) : Op α
  | set_error (e : String) : Op α
  | lookup (id : PluginIndex) : Op α
  deriving DecidableEq

/-- The context after performing one operation (outputs discarded). -/
def stepOp {α : Type} (c : Context α) : Op α → Context α
  | Op.allocate => (next_id c).2
  | Op.insert id p => insert c id p
  | Op.remove id => remove c id
  | Op.set_error e => set_error c e
  | Op.lookup _ => c

/-- The context after performing a sequence of operations in order. -/
def run {α : Type} (c : Context α) : List (Op α) → Context α
  | [] => c
  | op :: ops => run (stepOp c op) ops

/-- The `Result` values returned by the `allocate` calls of an operation
sequence, in call order. -/
def allocResults {α : Type} (c : Context α) :
    List (Op α) → List (Except String PluginIndex)
  | [] => []
  | Op.allocate :: ops => (next_id c).1 :: allocResults (next_id c).2 ops
  | Op.insert id p :: ops => allocResults (insert c id p) ops
  | Op.remove id :: ops => allocResults (remove c id) ops
  | Op.set_error e :: ops => allocResults (set_error c e) ops
  | Op.lookup _ :: ops => allocResults c ops

/-- Results and final context of `n` consecutive `next_id` calls. -/
def allocList {α : Type} (c : Context α) :
    Nat → List (Except String PluginIndex) × Context α
  | 0 => ([], c)
  | Nat.succ n =>
    let r := next_id c
    let rest := allocList r.2 n
    (r.1 :: rest.1, rest.2)

/-- `precedesB a b l` holds when, scanning `l` from the front, `a` is seen
strictly before the first occurrence of `b` (vacuously when `b` never
occurs). -/
def precedesB {β : Type} [DecidableEq β] (a b : β) : List β → Bool
  | [] => true
  | x :: l => if x = b then false else if x = a then true else precedesB a b l

/-- The call sequences of the uniqueness claim (spec §8 P1): starting from a
fresh session, `next_id`, `next_id` immediately followed by `insert` of the
returned id, `remove` of a currently live id, and `set_error`, in any order. -/
inductive Reach {α : Type} : Context α → Prop where
  | new : Reach Context.new
  | alloc (c : Context α) : Reach c → Reach (next_id c).2
  | alloc_insert (c : Context α) (i : PluginIndex) (p : α) :
      Reach c → (next_id c).1 = Except.ok i → Reach (insert (next_id c).2 i p)
  | remove_live (c : Context α) (id : PluginIndex) :
      Reach c → plugin c id ≠ none → Reach (remove c id)
  | set_err (c : Context α) (e : String) : Reach c → Reach (set_error c e)

/-- The allocator invariant maintained by every disciplined call sequence:
counter within bounds, live and reclaimed ids below the counter, live keys
disjoint from the reclaimed queue, and no duplicates on either side. -/
structure Inv {α : Type} (c : Context α) : Prop where
  counter_nonneg : 0 ≤ c.next_id
  counter_le : c.next_id ≤ PluginIndex.MAX
  keys_bounds : ∀ k ∈ keys c.plugins, 0 ≤ k ∧ k < c.next_id
  reclaimed_bounds : ∀ x ∈ c.reclaimed_ids, 0 ≤ x ∧ x < c.next_id
  live_not_reclaimed : ∀ k ∈ keys c.plugins, k ∉ c.reclaimed_ids
  reclaimed_nodup : c.reclaimed_ids.Nodup
  keys_nodup : (keys c.plugins).Nodup

/-- A case analysis of `Context::next_id`: it either pops the front of the
reclaimed queue, allocates the counter value freshly, or fails exhausted. -/
lemma next_id_spec {α : Type} (c : Context α) :
    (∃ x rest, c.reclaimed_ids = x :: rest ∧
      next_id c = (Except.ok x, { c with reclaimed_ids := rest }))
    ∨ (c.next_id ≠ PluginIndex.MAX ∧
      next_id c = (Except.ok c.next_id, { c with next_id := c.next_id + 1 }))
    ∨ (c.next_id = PluginIndex.MAX ∧ c.reclaimed_ids = [] ∧
      next_id c = (Except.error allocExhaustedMsg, c)) := by
  by_cases hcond :
      c.reclaimed_ids.length ≥ START_REUSING_IDS ∨ c.next_id = PluginIndex.MAX
  · rcases hq : c.reclaimed_ids with _ | ⟨x, rest⟩
    · by_cases hm : c.next_id = PluginIndex.MAX
      · refine Or.inr (Or.inr ⟨hm, rfl, ?_⟩)
        simp [next_id, hq, hm]
      · exfalso
        rcases hcond with hlen | hmax
        · rw [hq] at hlen
          simp [START_REUSING_IDS] at hlen
        · exact hm hmax
    · rw [hq] at hcond
      refine Or.inl ⟨x, rest, rfl, ?_⟩
      simp only [next_id, hq]
      simp only [List.length_cons] at hcond
      have hc : (x :: rest).length ≥ START_REUSING_IDS ∨ c.next_id = PluginIndex.MAX := by
        simpa using hcond
      rw [if_pos hc]
  · refine Or.inr (Or.inl ⟨fun hm => hcond (Or.inr hm), ?_⟩)
    simp [next_id, hcond]

lemma next_id_error_preserved {α : Type} (c : Context α) :
    ((next_id c).2).error = c.error := by
  rcases next_id_spec c with ⟨x, rest, _, heq⟩ | ⟨_, heq⟩ | ⟨_, _, heq⟩ <;>
    rw [heq]

lemma next_id_counter_mono {α : Type} (c : Context α) :
    ((next_id c).2).next_id = c.next_id ∨
      ((next_id c).2).next_id = c.next_id + 1 := by
  rcases next_id_spec c with ⟨x, rest, _, heq⟩ | ⟨_, heq⟩ | ⟨_, _, heq⟩ <;>
    rw [heq] <;> simp

lemma btreeGet_eq_none_of_not_mem {α : Type} {k : PluginIndex}
    {l : List (PluginIndex × α)} (h : k ∉ keys l) : btreeGet k l = none := by
  induction l with
  | nil => rfl
  | cons hd tl ih =>
    simp only [keys, List.map_cons, List.mem_cons] at h
    push_neg at h
    simp only [btreeGet, if_neg h.1]
    exact ih h.2

lemma btreeRemove_sublist {α : Type} (k : PluginIndex)
    (l : List (PluginIndex × α)) : (btreeRemove k l).Sublist l := by
  induction l with
  | nil => exact List.Sublist.refl _
  | cons hd tl ih =>
    by_cases h : k = hd.1
    · simp only [btreeRemove, if_pos h]
      exact List.sublist_cons_self hd tl
    · simp only [btreeRemove, if_neg h]
      exact List.Sublist.cons₂ hd ih

lemma keys_btreeRemove_sublist {α : Type} (k : PluginIndex)
    (l : List (PluginIndex × α)) :
    (keys (btreeRemove k l)).Sublist (keys l) :=
  List.Sublist.map Prod.fst (btreeRemove_sublist k l)

lemma not_mem_keys_btreeRemove {α : Type} {k : PluginIndex}
    {l : List (PluginIndex × α)} (h : (keys l).Nodup) :
    k ∉ keys (btreeRemove k l) := by
  induction l with
  | nil => simp [btreeRemove, keys]
  | cons hd tl ih =>
    simp only [keys, List.map_cons, List.nodup_cons] at h
    by_cases hk : k = hd.1
    · simp only [btreeRemove, if_pos hk]
      rw [hk]
      exact h.1
    · simp only [btreeRemove, if_neg hk, keys, List.map_cons, List.mem_cons]
      push_neg
      exact ⟨hk, ih h.2⟩

lemma btreeGet_btreeRemove_ne {α : Type} {j k : PluginIndex}
    (l : List (PluginIndex × α)) (h : j ≠ k) :
    btreeGet j (btreeRemove k l) = btreeGet j l := by
  induction l with
  | nil => rfl
  | cons hd tl ih =>
    by_cases hk : k = hd.1
    · have hj : j ≠ hd.1 := hk ▸ h
      simp [btreeRemove, if_pos hk, btreeGet, if_neg hj]
    · by_cases hj : j = hd.1
      · simp [btreeRemove, if_neg hk, btreeGet, if_pos hj]
      · simp [btreeRemove, if_neg hk, btreeGet, if_neg hj, ih]

lemma btreeRemove_eq_of_not_mem {α : Type} {k : PluginIndex}
    {l : List (PluginIndex × α)} (h : k ∉ keys l) : btreeRemove k l = l := by
  induction l with
  | nil => rfl
  | cons hd tl ih =>
    simp only [keys, List.map_cons, List.mem_cons] at h
    push_neg at h
    simp only [btreeRemove, if_neg h.1]
    rw [ih h.2]

lemma mem_keys_btreeInsert {α : Type} {j k : PluginIndex} {v : α}
    {l : List (PluginIndex × α)} (h : j ∈ keys (btreeInsert k v l)) :
    j = k ∨ j ∈ keys l := by
  induction l with
  | nil =>
    simp only [btreeInsert, keys, List.map_cons, List.map_nil,
      List.mem_cons, List.not_mem_nil, or_false] at h
    exact Or.inl h
  | cons hd tl ih =>
    by_cases h1 : k < hd.1
    · simp only [btreeInsert, if_pos h1, keys, List.map_cons,
        List.mem_cons] at h ⊢
      tauto
    · by_cases h2 : k = hd.1
      · simp only [btreeInsert, if_neg h1, if_pos h2, keys, List.map_cons,
          List.mem_cons] at h ⊢
        tauto
      · simp only [btreeInsert, if_neg h1, if_neg h2, keys, List.map_cons,
          List.mem_cons] at h ⊢
        rcases h with h | h
        · tauto
        · rcases ih h with h | h <;> tauto

lemma nodup_keys_btreeInsert {α : Type} {k : PluginIndex} {v : α}
    {l : List (PluginIndex × α)} (hk : k ∉ keys l) (h : (keys l).Nodup) :
    (keys (btreeInsert k v l)).Nodup := by
  induction l with
  | nil => simp [btreeInsert, keys]
  | cons hd tl ih =>
    simp only [keys, List.map_cons, List.nodup_cons, List.mem_cons] at h hk
    push_neg at hk
    by_cases h1 : k < hd.1
    · simp only [btreeInsert, if_pos h1, keys, List.map_cons, List.nodup_cons,
        List.mem_cons]
      push_neg
      exact ⟨⟨hk.1, hk.2⟩, h.1, h.2⟩
    · by_cases h2 : k = hd.1
      · exact absurd h2 hk.1
      · simp only [btreeInsert, if_neg h1, if_neg h2, keys, List.map_cons,
          List.nodup_cons]
        refine ⟨fun hmem => ?_, ih hk.2 h.2⟩
        rcases mem_keys_btreeInsert hmem with he | he
        · exact h2 he.symm
        · exact h.1 he

lemma btreeGet_btreeInsert_self {α : Type} (k : PluginIndex) (v : α)
    (l : List (PluginIndex × α)) : btreeGet k (btreeInsert k v l) = some v := by
  induction l with
  | nil => simp [btreeInsert, btreeGet]
  | cons hd tl ih =>
    by_cases h1 : k < hd.1
    · simp [btreeInsert, if_pos h1, btreeGet]
    · by_cases h2 : k = hd.1
      · simp [btreeInsert, if_neg h1, if_pos h2, btreeGet]
      · simp [btreeInsert, if_neg h1, if_neg h2, btreeGet, ih]

lemma precedesB_head_ne {β : Type} [DecidableEq β] {a b x : β} {l : List β}
    (h : precedesB a b (x :: l) = true) : x ≠ b := by
  intro he
  simp [precedesB, he] at h

lemma precedesB_tail {β : Type} [DecidableEq β] {a b x : β} {l : List β}
    (h : precedesB a b (x :: l) = true) (hx : x ≠ a) :
    precedesB a b l = true := by
  have hb := precedesB_head_ne h
  simpa [precedesB, hb, hx] using h

lemma precedesB_cons_self {β : Type} [DecidableEq β] {a b : β} (l : List β)
    (hab : a ≠ b) : precedesB a b (a :: l) = true := by
  simp [precedesB, hab]

lemma precedesB_append {β : Type} [DecidableEq β] {a b x : β} {l : List β}
    (h : precedesB a b l = true) (hx : x ≠ b) :
    precedesB a b (l ++ [x]) = true := by
  induction l with
  | nil => simp [precedesB, hx]
  | cons y l ih =>
    by_cases hyb : y = b
    · simp [precedesB, hyb] at h
    · by_cases hya : y = a
      · have hab : a ≠ b := fun e => hyb (hya.trans e)
        simp [List.cons_append, precedesB, hyb, hya, hab]
      · simp only [precedesB, if_neg hyb, if_neg hya] at h
        simp only [List.cons_append, precedesB, if_neg hyb, if_neg hya]
        exact ih h

lemma inv_new {α : Type} : Inv (Context.new : Context α) := by
  refine ⟨?_, ?_, ?_, ?_, ?_, ?_, ?_⟩ <;>
    simp [Context.new, keys, PluginIndex.MAX]

lemma inv_next_id {α : Type} {c : Context α} (h : Inv c) :
    Inv (next_id c).2 := by
  rcases next_id_spec c with ⟨x, rest, hq, heq⟩ | ⟨hm, heq⟩ | ⟨_, _, heq⟩
  · rw [heq]
    refine ⟨h.counter_nonneg, h.counter_le, h.keys_bounds, ?_, ?_, ?_,
      h.keys_nodup⟩
    · intro y hy
      exact h.reclaimed_bounds y (by rw [hq]; exact List.mem_cons_of_mem x hy)
    · intro k hk hmem
      exact h.live_not_reclaimed k hk
        (by rw [hq]; exact List.mem_cons_of_mem x hmem)
    · have hnd := h.reclaimed_nodup
      rw [hq] at hnd
      exact hnd.of_cons
  · rw [heq]
    refine ⟨?_, ?_, ?_, ?_, h.live_not_reclaimed, h.reclaimed_nodup,
      h.keys_nodup⟩
    · exact le_trans h.counter_nonneg (le_of_lt (lt_add_one _))
    · exact Int.add_one_le_iff.mpr (lt_of_le_of_ne h.counter_le hm)
    · intro k hk
      have hb := h.keys_bounds k hk
      exact ⟨hb.1, lt_trans hb.2 (lt_add_one _)⟩
    · intro y hy
      have hb := h.reclaimed_bounds y hy
      exact ⟨hb.1, lt_trans hb.2 (lt_add_one _)⟩
  · rw [heq]
    exact h

lemma inv_insert {α : Type} {c : Context α} {i : PluginIndex} (p : α)
    (h : Inv c) (hi : (next_id c).1 = Except.ok i) :
    Inv (insert (next_id c).2 i p) := by
  rcases next_id_spec c with ⟨x, rest, hq, heq⟩ | ⟨hm, heq⟩ | ⟨_, _, heq⟩
  · rw [heq] at hi ⊢
    have hxi : x = i := by simpa using hi
    subst hxi
    have hxmem : x ∈ c.reclaimed_ids := by rw [hq]; exact List.mem_cons_self x rest
    have hxb := h.reclaimed_bounds x hxmem
    have hxlive : x ∉ keys c.plugins := fun hk =>
      h.live_not_reclaimed x hk hxmem
    have hxrest : x ∉ rest := by
      have hnd := h.reclaimed_nodup
      rw [hq, List.nodup_cons] at hnd
      exact hnd.1
    refine ⟨h.counter_nonneg, h.counter_le, ?_, ?_, ?_, ?_, ?_⟩
    · intro k hk
      rcases mem_keys_btreeInsert hk with he | hk'
      · exact he ▸ hxb
      · exact h.keys_bounds k hk'
    · intro y hy
      exact h.reclaimed_bounds y (by rw [hq]; exact List.mem_cons_of_mem x hy)
    · intro k hk hmem
      rcases mem_keys_btreeInsert hk with he | hk'
      · exact hxrest (he ▸ hmem)
      · exact h.live_not_reclaimed k hk'
          (by rw [hq]; exact List.mem_cons_of_mem x hmem)
    · have hnd := h.reclaimed_nodup
      rw [hq] at hnd
      exact hnd.of_cons
    · exact nodup_keys_btreeInsert hxlive h.keys_nodup
  · rw [heq] at hi ⊢
    have hci : c.next_id = i := by simpa using hi
    have hilive : i ∉ keys c.plugins := fun hk =>
      absurd (h.keys_bounds i hk).2 (by rw [← hci]; exact lt_irrefl _)
    refine ⟨?_, ?_, ?_, ?_, ?_, h.reclaimed_nodup, ?_⟩
    · exact le_trans h.counter_nonneg (le_of_lt (lt_add_one _))
    · exact Int.add_one_le_iff.mpr (lt_of_le_of_ne h.counter_le hm)
    · intro k hk
      rcases mem_keys_btreeInsert hk with he | hk'
      · subst he
        exact ⟨hci ▸ h.counter_nonneg, hci ▸ lt_add_one _⟩
      · have hb := h.keys_bounds k hk'
        exact ⟨hb.1, lt_trans hb.2 (lt_add_one _)⟩
    · intro y hy
      have hb := h.reclaimed_bounds y hy
      exact ⟨hb.1, lt_trans hb.2 (lt_add_one _)⟩
    · intro k hk hmem
      rcases mem_keys_btreeInsert hk with he | hk'
      · subst he
        exact absurd (h.reclaimed_bounds k hmem).2
          (by rw [← hci]; exact lt_irrefl _)
      · exact h.live_not_reclaimed k hk' hmem
    · exact nodup_keys_btreeInsert hilive h.keys_nodup
  · rw [heq] at hi
    simp at hi

lemma inv_remove {α : Type} {c : Context α} {id : PluginIndex}
    (h : Inv c) (hl : plugin c id ≠ none) : Inv (remove c id) := by
  have hmem : id ∈ keys c.plugins := by
    by_contra hn
    exact hl (btreeGet_eq_none_of_not_mem hn)
  have hid : id ∉ c.reclaimed_ids := h.live_not_reclaimed id hmem
  refine ⟨h.counter_nonneg, h.counter_le, ?_, ?_, ?_, ?_, ?_⟩
  · intro k hk
    exact h.keys_bounds k
      ((keys_btreeRemove_sublist id c.plugins).subset hk)
  · intro y hy
    rcases List.mem_append.mp hy with hy' | hy'
    · exact h.reclaimed_bounds y hy'
    · have : y = id := by simpa using hy'
      exact this ▸ h.keys_bounds id hmem
  · intro k hk hmem'
    have hk' : k ∈ keys c.plugins :=
      (keys_btreeRemove_sublist id c.plugins).subset hk
    rcases List.mem_append.mp hmem' with hm' | hm'
    · exact h.live_not_reclaimed k hk' hm'
    · have hkid : k = id := by simpa using hm'
      exact not_mem_keys_btreeRemove h.keys_nodup (hkid ▸ hk)
  · show (c.reclaimed_ids ++ [id]).Nodup
    rw [List.nodup_append]
    exact ⟨h.reclaimed_nodup, List.nodup_singleton id, by
      intro y hy hy'
      have : y = id := by simpa using hy'
      exact hid (this ▸ hy)⟩
  · exact List.Nodup.sublist (keys_btreeRemove_sublist id c.plugins)
      h.keys_nodup

lemma inv_set_error {α : Type} {c : Context α} {e : String} (h : Inv c) :
    Inv (set_error c e) :=
  ⟨h.counter_nonneg, h.counter_le, h.keys_bounds, h.reclaimed_bounds,
    h.live_not_reclaimed, h.reclaimed_nodup, h.keys_nodup⟩

lemma reach_inv {α : Type} {c : Context α} (h : Reach c) : Inv c := by
  induction h with
  | new => exact inv_new
  | alloc c _ ih => exact inv_next_id ih
  | alloc_insert c i p _ hi ih => exact inv_insert p ih hi
  | remove_live c id _ hl ih => exact inv_remove ih hl
  | set_err c e _ ih => exact inv_set_error ih

/-- C1: under every disciplined sequence of allocate/insert/remove calls —
insert only of a freshly allocated, non-live id; remove only of a live id, at
most once per allocation — the live handles are pairwise distinct, and
`next_id` never returns a handle currently present as a key in the plugins
registry. -/
theorem allocator_never_returns_live_handle {α : Type} (c : Context α)
    (h : Reach c) :
    (keys c.plugins).Nodup ∧
      ∀ i c', next_id c = (Except.ok i, c') → plugin c i = none := by
  have inv := reach_inv h
  refine ⟨inv.keys_nodup, ?_⟩
  intro i c' heq'
  rcases next_id_spec c with ⟨x, rest, hq, heq⟩ | ⟨hm, heq⟩ | ⟨_, _, heq⟩
  · rw [heq] at heq'
    have hxi : x = i := by simpa using congrArg Prod.fst heq'
    subst hxi
    have hxmem : x ∈ c.reclaimed_ids := by
      rw [hq]
      exact List.mem_cons_self x rest
    have hxlive : x ∉ keys c.plugins := fun hk =>
      inv.live_not_reclaimed x hk hxmem
    exact btreeGet_eq_none_of_not_mem hxlive
  · rw [heq] at heq'
    have hci : c.next_id = i := by simpa using congrArg Prod.fst heq'
    have hilive : i ∉ keys c.plugins := fun hk =>
      absurd (inv.keys_bounds i hk).2 (by rw [← hci]; exact lt_irrefl _)
    exact btreeGet_eq_none_of_not_mem hilive
  · rw [heq] at heq'
    exact absurd (congrArg Prod.fst heq') (by simp)

/-- Witness for C1: at the fresh session, the first `next_id` call returns
handle 0, which is indeed not a live key. -/
theorem allocator_never_returns_live_handle_w :
    plugin (Context.new : Context Unit) 0 = none :=
  (allocator_never_returns_live_handle Context.new Reach.new).2 0
    { plugins := [], error := none, next_id := 1, reclaimed_ids := [] } rfl

/-- C9: in every state of a disciplined session, a successful `next_id` call
never returns `PluginIndex::MAX`: every handle returned lies in
`[0, MAX - 1]`, even though the spec states the domain as `[0, MAX]`. -/
theorem allocated_handle_below_max {α : Type} (c : Context α) (h : Reach c)
    (i : PluginIndex) (c' : Context α)
    (heq' : next_id c = (Except.ok i, c')) :
    0 ≤ i ∧ i < PluginIndex.MAX := by
  have inv := reach_inv h
  rcases next_id_spec c with ⟨x, rest, hq, heq⟩ | ⟨hm, heq⟩ | ⟨_, _, heq⟩
  · rw [heq] at heq'
    have hxi : x = i := by simpa using congrArg Prod.fst heq'
    subst hxi
    have hxmem : x ∈ c.reclaimed_ids := by
      rw [hq]
      exact List.mem_cons_self x rest
    have hb := inv.reclaimed_bounds x hxmem
    exact ⟨hb.1, lt_of_lt_of_le hb.2 inv.counter_le⟩
  · rw [heq] at heq'
    have hci : c.next_id = i := by simpa using congrArg Prod.fst heq'
    exact ⟨hci ▸ inv.counter_nonneg, hci ▸ lt_of_le_of_ne inv.counter_le hm⟩
  · rw [heq] at heq'
    exact absurd (congrArg Prod.fst heq') (by simp)

/-- Witness for C9: the first allocation of a fresh session returns 0, which
lies in `[0, MAX - 1]`. -/
theorem allocated_handle_below_max_w : (0 : Int) ≤ 0 ∧ (0 : Int) < PluginIndex.MAX :=
  allocated_handle_below_max (Context.new : Context Unit) Reach.new 0
    { plugins := [], error := none, next_id := 1, reclaimed_ids := [] } rfl

/-- C2: `next_id` fails exactly in the states where the counter equals
`PluginIndex::MAX` and the reclaimed queue is empty; the failure carries the
`AllocationExhausted` message and leaves the whole context unchanged — hence
it repeats deterministically on every subsequent call — and after a `remove`
the next call succeeds again. -/
theorem next_id_exhaustion {α : Type} (c : Context α) :
    (c.next_id = PluginIndex.MAX ∧ c.reclaimed_ids = [] →
        next_id c = (Except.error allocExhaustedMsg, c))
    ∧ (∀ m c', next_id c = (Except.error m, c') →
        m = allocExhaustedMsg ∧ c' = c ∧ c.next_id = PluginIndex.MAX ∧
          c.reclaimed_ids = [])
    ∧ (∀ id, c.next_id = PluginIndex.MAX → c.reclaimed_ids = [] →
        (next_id (remove c id)).1 = Except.ok id) := by
  refine ⟨?_, ?_, ?_⟩
  · rintro ⟨hm, hq⟩
    simp [next_id, hm, hq]
  · intro m c' heq'
    rcases next_id_spec c with ⟨x, rest, hq, heq⟩ | ⟨hm, heq⟩ | ⟨hm, hq, heq⟩
    · rw [heq] at heq'
      exact absurd (congrArg Prod.fst heq') (by simp)
    · rw [heq] at heq'
      exact absurd (congrArg Prod.fst heq') (by simp)
    · rw [heq] at heq'
      have h1 := congrArg Prod.fst heq'
      have h2 := congrArg Prod.snd heq'
      simp only at h1 h2
      have h1' : m = allocExhaustedMsg := by simpa using h1.symm
      exact ⟨h1', h2.symm, hm, hq⟩
  · intro id hm hq
    simp [remove, next_id, hm, hq]

/-- Witness for C2: a context whose counter equals `MAX` with an empty
reclaimed queue fails with the exhaustion message and is left unchanged. -/
theorem next_id_exhaustion_w :
    next_id (⟨[], none, PluginIndex.MAX, []⟩ : Context Unit)
      = (Except.error allocExhaustedMsg, ⟨[], none, PluginIndex.MAX, []⟩) :=
  (next_id_exhaustion _).1 ⟨rfl, rfl⟩

/-- C6: the monotonic counter never decreases: every single operation leaves
it unchanged or increments it by one, and across any sequence of operations
it only grows. -/
theorem counter_monotone {α : Type} :
    (∀ (c : Context α) (op : Op α),
        (stepOp c op).next_id = c.next_id ∨
          (stepOp c op).next_id = c.next_id + 1)
    ∧ ∀ (c : Context α) (ops : List (Op α)),
        c.next_id ≤ (run c ops).next_id := by
  have hstep : ∀ (c : Context α) (op : Op α),
      (stepOp c op).next_id = c.next_id ∨
        (stepOp c op).next_id = c.next_id + 1 := by
    intro c op
    cases op with
    | allocate => exact next_id_counter_mono c
    | insert id p => exact Or.inl rfl
    | remove id => exact Or.inl rfl
    | set_error e => exact Or.inl rfl
    | lookup id => exact Or.inl rfl
  refine ⟨hstep, ?_⟩
  intro c ops
  induction ops generalizing c with
  | nil => exact le_refl _
  | cons op ops ih =>
    have h1 : c.next_id ≤ (stepOp c op).next_id := by
      rcases hstep c op with he | he
      · rw [he]
      · rw [he]
        exact le_of_lt (lt_add_one _)
    exact le_trans h1 (ih (stepOp c op))

/-- C4: Scenario A — on a fresh session, thirty consecutive `next_id` calls
return ids 0 through 29 in order; after removing ids 0 through 24 (25
removals, reaching `START_REUSING_IDS`), the next `next_id` call returns 0,
the oldest reclaimed id, not 30. -/
theorem scenario_a :
    (allocList (Context.new : Context Unit) 30).1
        = (List.range 30).map (fun n => Except.ok ((n : Nat) : Int))
      ∧ (next_id ((List.range 25).foldl
            (fun c i => remove c ((i : Nat) : Int))
            (allocList (Context.new : Context Unit) 30).2)).1
        = Except.ok 0 := by
  decide

/-- C7: for every id, `remove` unconditionally appends `id` to the back of
the reclaimed queue; it deletes the registry entry for `id` when present
(lookup afterwards returns `none`, other ids are untouched) and is a no-op
on the registry when absent; a new insert under `id` makes lookup return the
new plugin again. -/
theorem remove_spec {α : Type} (c : Context α) (id : PluginIndex)
    (h : (keys c.plugins).Nodup) :
    (remove c id).reclaimed_ids = c.reclaimed_ids ++ [id]
    ∧ plugin (remove c id) id = none
    ∧ (∀ j, j ≠ id → plugin (remove c id) j = plugin c j)
    ∧ (id ∉ keys c.plugins → (remove c id).plugins = c.plugins)
    ∧ ∀ p, plugin (insert (remove c id) id p) id = some p := by
  refine ⟨rfl, ?_, ?_, ?_, ?_⟩
  · exact btreeGet_eq_none_of_not_mem (not_mem_keys_btreeRemove h)
  · intro j hj
    exact btreeGet_btreeRemove_ne c.plugins hj
  · intro hn
    exact btreeRemove_eq_of_not_mem hn
  · intro p
    exact btreeGet_btreeInsert_self id p _

/-- Witness for C7 at Scenario C: removing id 5 from a registry holding
plugin 7 under key 5 makes lookup of 5 return `none`. -/
theorem remove_spec_w :
    plugin (remove (⟨[(5, 7)], none, 6, []⟩ : Context Nat) 5) 5 = none :=
  (remove_spec ⟨[(5, 7)], none, 6, []⟩ 5 (by decide)).2.1

/-- C8: `error e x` returns exactly `x`, and its only state change is
overwriting the error slot with the representation of `e`: the registry, the
counter and the reclaimed queue are unchanged. -/
theorem error_returns_value {α β : Type} (c : Context α) (e : String)
    (x : β) :
    (error c e x).1 = x
    ∧ ((error c e x).2).error = some e
    ∧ ((error c e x).2).plugins = c.plugins
    ∧ ((error c e x).2).next_id = c.next_id
    ∧ ((error c e x).2).reclaimed_ids = c.reclaimed_ids :=
  ⟨rfl, rfl, rfl, rfl, rfl⟩

/-- C3 counterexample: at the exhausted session state, `next_id` reports the
`AllocationExhausted` failure through its primary return channel, yet the
error slot afterwards still holds nothing — the core itself never writes the
slot when `next_id` fails. -/
theorem next_id_failure_leaves_error_slot_empty :
    (next_id (⟨[], none, PluginIndex.MAX, []⟩ : Context Unit)).1
        = Except.error allocExhaustedMsg
      ∧ ((next_id (⟨[], none, PluginIndex.MAX, []⟩ : Context Unit)).2).error
        = none :=
  ⟨rfl, rfl⟩

/-- C3 amended: the error slot is written only by `set_error` and `error`,
which store the representation of the given failure value; `next_id` — even
when it fails — `remove` and `insert` leave the slot untouched, so the slot
holds the most recently stored description until the next `set_error` /
`error` call or the end of the session. -/
theorem error_slot_written_only_by_set_error {α β : Type} (c : Context α)
    (e : String) (x : β) (id : PluginIndex) (p : α) :
    (set_error c e).error = some e
    ∧ ((error c e x).2).error = some e
    ∧ ((next_id c).2).error = c.error
    ∧ (remove c id).error = c.error
    ∧ (insert c id p).error = c.error :=
  ⟨rfl, rfl, next_id_error_preserved c, rfl, rfl⟩

/-- C10: a call sequence that removes the same id twice — the second time
while the id is absent from the registry — puts the id into the reclaimed
queue twice, after which two consecutive `next_id` calls both return that
same id with no intervening remove; the code performs no check against
double removal. -/
theorem double_remove_double_allocation :
    plugin (run (Context.new : Context Unit)
        [Op.allocate, Op.insert 0 (), Op.remove 0]) 0 = none
    ∧ (run (Context.new : Context Unit)
          ([Op.allocate, Op.insert 0 (), Op.remove 0, Op.remove 0]
            ++ (List.range 24).map
              (fun n => Op.remove ((n : Nat) + 1 : Int)))).reclaimed_ids.count 0
        = 2
    ∧ (next_id (run (Context.new : Context Unit)
          ([Op.allocate, Op.insert 0 (), Op.remove 0, Op.remove 0]
            ++ (List.range 24).map
              (fun n => Op.remove ((n : Nat) + 1 : Int))))).1
        = Except.ok 0
    ∧ (next_id (next_id (run (Context.new : Context Unit)
          ([Op.allocate, Op.insert 0 (), Op.remove 0, Op.remove 0]
            ++ (List.range 24).map
              (fun n => Op.remove ((n : Nat) + 1 : Int))))).2).1
        = Except.ok 0 := by
  decide

/-- C5: FIFO reuse — when `a` precedes `b` in the reclaimed queue (the state
produced by removing `a` then `b` with no reuse in between), both ids lie
below the counter, and `b` is not removed again, then along any subsequent
operation sequence every allocation that returns `b` is preceded by an
allocation that returned `a`: the queue is popped from the front and
appended at the back. -/
theorem reclaimed_reuse_fifo {α : Type} (c : Context α) (a b : PluginIndex)
    (ops : List (Op α)) (hab : a ≠ b) (ha : a < c.next_id)
    (hb : b < c.next_id) (hnb : Op.remove b ∉ ops)
    (hprec : precedesB a b c.reclaimed_ids = true) :
    precedesB (Except.ok a) (Except.ok b) (allocResults c ops) = true := by
  revert ha hb hnb hprec
  induction ops generalizing c with
  | nil =>
    intro _ _ _ _
    rfl
  | cons op ops ih =>
    intro ha hb hnb hprec
    have hnb' : Op.remove b ∉ ops := fun hmem =>
      hnb (List.mem_cons_of_mem _ hmem)
    cases op with
    | allocate =>
      show precedesB (Except.ok a) (Except.ok b)
        ((next_id c).1 :: allocResults (next_id c).2 ops) = true
      rcases next_id_spec c with ⟨x, rest, hq, heq⟩ | ⟨hm, heq⟩ | ⟨hm, hq, heq⟩
      · have e1 : (next_id c).1 = Except.ok x := by rw [heq]
        have e2 : (next_id c).2 = { c with reclaimed_ids := rest } := by
          rw [heq]
        rw [hq] at hprec
        have hxb : x ≠ b := precedesB_head_ne hprec
        by_cases hxa : x = a
        · subst hxa
          rw [e1]
          exact precedesB_cons_self _ (by simp [hab])
        · rw [e1, e2]
          have h1 : (Except.ok x : Except String PluginIndex) ≠ Except.ok b := by
            simp [hxb]
          have h2 : (Except.ok x : Except String PluginIndex) ≠ Except.ok a := by
            simp [hxa]
          simp only [precedesB, if_neg h1, if_neg h2]
          exact ih _ ha hb hnb' (precedesB_tail hprec hxa)
      · have e1 : (next_id c).1 = Except.ok c.next_id := by rw [heq]
        have e2 : (next_id c).2 = { c with next_id := c.next_id + 1 } := by
          rw [heq]
        rw [e1, e2]
        have h1 : (Except.ok c.next_id : Except String PluginIndex) ≠ Except.ok b :=
          fun e => ne_of_gt hb (Except.ok.inj e)
        have h2 : (Except.ok c.next_id : Except String PluginIndex) ≠ Except.ok a :=
          fun e => ne_of_gt ha (Except.ok.inj e)
        simp only [precedesB, if_neg h1, if_neg h2]
        exact ih _ (lt_trans ha (lt_add_one _)) (lt_trans hb (lt_add_one _))
          hnb' hprec
      · have e1 : (next_id c).1 = Except.error allocExhaustedMsg := by
          rw [heq]
        have e2 : (next_id c).2 = c := by rw [heq]
        rw [e1, e2]
        have h1 : (Except.error allocExhaustedMsg :
            Except String PluginIndex) ≠ Except.ok b := by simp
        have h2 : (Except.error allocExhaustedMsg :
            Except String PluginIndex) ≠ Except.ok a := by simp
        simp only [precedesB, if_neg h1, if_neg h2]
        exact ih _ ha hb hnb' hprec
    | insert id p =>
      show precedesB (Except.ok a) (Except.ok b)
        (allocResults (insert c id p) ops) = true
      exact ih _ ha hb hnb' hprec
    | remove id =>
      have hidb : id ≠ b := by
        intro e
        exact hnb (by rw [e]; exact List.mem_cons_self _ _)
      show precedesB (Except.ok a) (Except.ok b)
        (allocResults (remove c id) ops) = true
      exact ih _ ha hb hnb' (precedesB_append hprec hidb)
    | set_error e =>
      show precedesB (Except.ok a) (Except.ok b)
        (allocResults (set_error c e) ops) = true
      exact ih _ ha hb hnb' hprec
    | lookup id =>
      show precedesB (Except.ok a) (Except.ok b)
        (allocResults c ops) = true
      exact ih _ ha hb hnb' hprec

/-- Witness for C5: queue `[0, 1, ..., 24]` with counter 30; two allocate
calls return 0 then 1, so 0 precedes 1 among the allocation results. -/
theorem reclaimed_reuse_fifo_w :
    precedesB (Except.ok 0) (Except.ok 1)
      (allocResults
        (⟨[], none, 30, (List.range 25).map (fun n => (n : Int))⟩ :
          Context Unit)
        [Op.allocate, Op.allocate]) = true :=
  reclaimed_reuse_fifo
    ⟨[], none, 30, (List.range 25).map (fun n => (n : Int))⟩ 0 1
    [Op.allocate, Op.allocate] (by decide) (by decide) (by decide)
    (by decide) (by decide)

end Extism
